import Mathlib

/-!
Verification of the L10 agentic-chain execution core.

This file gives a shallow embedding, in Lean 4, of the core of the
`legal-10` repository: the citation canonicalizer (`core/ids/canonical.py`),
the citation extraction/verification utilities
(`core/scoring/citation_verify.py`), the result and context schemas
(`core/schemas/results.py`, `core/schemas/chain.py`), the step contract
(`chain/steps/base.py`), the chain executor (`chain/runner/executor.py`),
the S7 citation-integrity step (`chain/steps/s7_citation_integrity.py`)
and the `score` methods of the concrete steps S1-S7 and the stub step.

Modelling conventions:
- Python strings are Lean `String`s; all character-level work is done on
  `String.data : List Char` with structural recursion so that every
  definition evaluates by kernel reduction.
- Python `float` is modelled by `Rat`; every score the code produces is a
  small exact fraction, so this is faithful on all values that occur.
- JSON-like Python values (`dict[str, Any]` payloads) are modelled by the
  inductive type `JsonVal`; payloads are association lists with the keys
  kept unique by the `set` operation, mirroring `dict` insertion order.
- Wall-clock timing (`time.time()`) is not modelled; the `timestamp` and
  `latency_ms` fields are set to `0` where the code stores measurements.
- A Python function that can raise on ill-typed input is modelled with an
  `Option` result (`none` = an exception propagates).
-/

/-- JSON-like values: the payloads handled by `parse`/`score`. -/
inductive JsonVal where
  | null
  | bool (b : Bool)
  | num (q : Rat)
  | str (s : String)
  | arr (elems : List JsonVal)
  | obj (fields : List (String × JsonVal))

/-- A parsed payload or ground-truth map: `dict[str, Any]` in the source. -/
abbrev Payload := List (String × JsonVal)

/-- Python `k in d` for a payload dictionary. -/
def hasKey (p : Payload) (k : String) : Bool :=
  p.any (fun q => q.1 == k)

/-- Python `d.get(k, default)` for a payload dictionary. -/
def getD (p : Payload) (k : String) (dflt : JsonVal) : JsonVal :=
  match p.find? (fun q => q.1 == k) with
  | some q => q.2
  | none => dflt

/-- Python `d[k] = v`: replace the binding if the key exists, else append. -/
def setKey (p : Payload) (k : String) (v : JsonVal) : Payload :=
  if hasKey p k then p.map (fun q => if q.1 == k then (k, v) else q) else p ++ [(k, v)]

/-- Python truthiness of a payload value (`if value:`). -/
def JsonVal.truthy : JsonVal → Bool
  | .null => false
  | .bool b => b
  | .num q => !(q == 0)
  | .str s => !(s == "")
  | .arr xs => !xs.isEmpty
  | .obj fs => !fs.isEmpty

/-- Coerce a payload value to the string it holds, `""` otherwise.
Used where the source reads a field it assumes to be a string. -/
def JsonVal.strD : JsonVal → String
  | .str s => s
  | _ => ""

/-- Python structural equality `==` restricted to JSON-like values.
Numeric values are compared as rationals, so `1954 == 1954.0` holds as in
Python.  Dictionary comparison is order-sensitive here, unlike Python;
no theorem in this file depends on comparing `obj` values. -/
def JsonVal.pyEq : JsonVal → JsonVal → Bool
  | .null, .null => true
  | .bool a, .bool b => a == b
  | .num a, .num b => a == b
  | .str a, .str b => a == b
  | .arr (a :: as), .arr (b :: bs) => a.pyEq b && JsonVal.pyEq (.arr as) (.arr bs)
  | .arr [], .arr [] => true
  | .obj ((k1, v1) :: as), .obj ((k2, v2) :: bs) =>
      k1 == k2 && v1.pyEq v2 && JsonVal.pyEq (.obj as) (.obj bs)
  | .obj [], .obj [] => true
  | _, _ => false

/-! ## Python string primitives

Character-level re-implementations of the Python string operations the
core uses, written with structural recursion so they reduce in the kernel. -/

/-- The whitespace class used by `str.strip` and the regex class `\s`.
Python also accepts further Unicode whitespace; only the ASCII part is
modelled, which covers every character class the citation pattern and the
repository's inputs use. -/
def isPyWs (c : Char) : Bool :=
  c == ' ' || c == '\t' || c == '\n' || c == '\r' || c == '\x0b' || c == '\x0c'

/-- Python `str.strip()` on a character list. -/
def pyStrip (s : List Char) : List Char :=
  ((s.dropWhile isPyWs).reverse.dropWhile isPyWs).reverse

/-- Fuel-driven core of Python `str.replace`: scan left to right, replace
each non-overlapping occurrence of `pat`, continue after the replacement.
The fuel only bounds the recursion; `fuel = s.length` is always enough
because each step consumes at least one character of `s`. -/
def pyReplaceGo (pat rep : List Char) : Nat → List Char → List Char
  | _, [] => []
  | 0, s => s
  | fuel + 1, c :: cs =>
    if pat.isPrefixOf (c :: cs) then
      rep ++ pyReplaceGo pat rep fuel ((c :: cs).drop pat.length)
    else
      c :: pyReplaceGo pat rep fuel cs

/-- Python `s.replace(pat, rep)` (for the nonempty patterns the source uses). -/
def pyReplace (pat rep s : List Char) : List Char :=
  if pat.isEmpty then s else pyReplaceGo pat rep s.length s

/-- Python `str.lower()` (ASCII; all inputs in scope are ASCII). -/
def pyLower (s : List Char) : List Char :=
  s.map Char.toLower

/-- Code-point comparison of characters, as used by Python string order. -/
def charLtB (a b : Char) : Bool :=
  a.toNat < b.toNat

/-- Lexicographic strict order on strings by code point (Python `<`). -/
def strLtB : List Char → List Char → Bool
  | [], [] => false
  | [], _ :: _ => true
  | _ :: _, [] => false
  | a :: as, b :: bs => charLtB a b || (a == b && strLtB as bs)

/-- Lexicographic `<=` on strings, Python's sort order for `sorted`. -/
def strLeB (a b : String) : Bool :=
  !strLtB b.data a.data

/-- Insert into a `strLeB`-sorted list, keeping it sorted. -/
def insertSorted (x : String) : List String → List String
  | [] => [x]
  | y :: ys => if strLeB x y then x :: y :: ys else y :: insertSorted x ys

/-- Python `sorted` on a list of strings (insertion sort; stable order is
irrelevant because it is only applied to duplicate-free sets). -/
def pySorted (l : List String) : List String :=
  l.foldr insertSorted []

/-! ## `core/ids/canonical.py` -/

/-- Embedding of `canonicalize_cite`: normalize `"U. S."` spacing variants to `"U.S."`,
replace spaces with underscores, remove periods, lowercase. -/
def canonicalize_cite (cite : String) : String :=
  let normalized := pyReplace "u. s.".data "u.s.".data
    (pyReplace "U. S.".data "U.S.".data cite.data)
  String.mk (pyLower (pyReplace ".".data "".data (pyReplace " ".data "_".data normalized)))

/-! ## `core/scoring/citation_verify.py`

The `eyecite` import in `extract_citations` is an optional external
package that is not part of the repository; the embedding models the
regex fallback path, `re.findall(r"\d{1,3}\s+U\.?\s*S\.?\s+\d{1,4}", text,
re.IGNORECASE)`, which is the behaviour the specification describes. -/

/-- The regex class `\d`. -/
def isDigitC (c : Char) : Bool :=
  48 ≤ c.toNat && c.toNat ≤ 57

/-- The literal `U` under `re.IGNORECASE`. -/
def isUC (c : Char) : Bool :=
  c == 'U' || c == 'u'

/-- The literal `S` under `re.IGNORECASE`. -/
def isSC (c : Char) : Bool :=
  c == 'S' || c == 's'

/-- Remainders of `s` after greedily consuming up to `hi` characters
satisfying `p`, longest consumption first; the final element is always
`s` itself (zero consumption).  This lists the backtracking alternatives
of a greedy bounded quantifier. -/
def greedyRests (p : Char → Bool) : Nat → List Char → List (List Char)
  | 0, s => [s]
  | _ + 1, [] => [[]]
  | hi + 1, c :: cs => if p c then greedyRests p hi cs ++ [c :: cs] else [c :: cs]

/-- Backtracking alternatives for the optional literal dot `\.?`:
consume the dot if present, else leave the input unchanged. -/
def optDotRests : List Char → List (List Char)
  | '.' :: cs => [cs, '.' :: cs]
  | s => [s]

/-- Try the alternatives in order and return the first success: the
backtracking search order of the regex engine. -/
def firstSome {α : Type} : List (List Char) → (List Char → Option α) → Option α
  | [], _ => none
  | c :: cs, k =>
    match k c with
    | some r => some r
    | none => firstSome cs k

/-- Match the pattern `\d{1,3}\s+U\.?\s*S\.?\s+\d{1,4}` (IGNORECASE) at the
start of `s`; on success return the remainder of `s` after the match. -/
def matchUSCite (s : List Char) : Option (List Char) :=
  firstSome ((greedyRests isDigitC 3 s).dropLast) fun s1 =>
  firstSome ((greedyRests isPyWs s1.length s1).dropLast) fun s2 =>
  match s2 with
  | c :: s3 =>
    if isUC c then
      firstSome (optDotRests s3) fun s4 =>
      firstSome (greedyRests isPyWs s4.length s4) fun s5 =>
      match s5 with
      | c2 :: s6 =>
        if isSC c2 then
          firstSome (optDotRests s6) fun s7 =>
          firstSome ((greedyRests isPyWs s7.length s7).dropLast) fun s8 =>
          firstSome ((greedyRests isDigitC 4 s8).dropLast) fun s9 =>
          some s9
        else none
      | [] => none
    else none
  | [] => none

/-- Embedding of `re.findall` for the citation pattern: scan left to right, record each
leftmost non-overlapping match, resume after it.  The fuel only bounds the
recursion; `fuel = s.length` is enough since every step advances. -/
def findallUSCitesGo : Nat → List Char → List (List Char)
  | 0, _ => []
  | _ + 1, [] => []
  | fuel + 1, c :: cs =>
    match matchUSCite (c :: cs) with
    | some rest =>
      (c :: cs).take ((c :: cs).length - rest.length) :: findallUSCitesGo fuel rest
    | none => findallUSCitesGo fuel cs

/-- All matches of the citation pattern in `s`, in order. -/
def findallUSCites (s : List Char) : List (List Char) :=
  findallUSCitesGo s.length s

/-- Embedding of `re.sub(r"\s+", " ", ...)`: collapse each whitespace run to one space.
The flag records whether the previous character was whitespace. -/
def collapseWsGo : Bool → List Char → List Char
  | _, [] => []
  | prevWs, c :: cs =>
    if isPyWs c then
      if prevWs then collapseWsGo true cs else ' ' :: collapseWsGo true cs
    else c :: collapseWsGo false cs

/-- The clean-up applied to each regex match:
`re.sub(r"\s+", " ", match.strip())`. -/
def cleanMatch (m : List Char) : String :=
  String.mk (collapseWsGo false (pyStrip m))

/-- The candidate citation list before de-duplication: every regex match,
cleaned, in match order. -/
def cleanedMatches (text : String) : List String :=
  (findallUSCites text.data).map cleanMatch

/-- The de-duplication loop of `extract_citations`: keep a citation only
when its canonical form has not been seen yet. -/
def dedupByCanonical (seen : List String) : List String → List String
  | [] => []
  | c :: cs =>
    let canonical := canonicalize_cite c
    if seen.contains canonical then dedupByCanonical seen cs
    else c :: dedupByCanonical (canonical :: seen) cs

/-- Embedding of `extract_citations(text)`: regex matches, cleaned, de-duplicated by
canonical form with the first occurrence kept. -/
def extract_citations (text : String) : List String :=
  dedupByCanonical [] (cleanedMatches text)

/-- Embedding of `CitationResult`: the classification of one citation. -/
structure CitationResult where
  cite : String
  canonical : String
  exists_ : Bool
  is_fake : Bool
  in_scdb : Bool

/-- Embedding of `verify_citation(cite, fake_us_cites, scdb_us_cites)`.  The reference
sets are modelled as lists of canonical strings with membership as the
set operation. -/
def verify_citation (cite : String) (fake_us_cites scdb_us_cites : List String) :
    CitationResult :=
  let canonical := canonicalize_cite cite
  let is_fake := fake_us_cites.contains canonical
  let in_scdb := scdb_us_cites.contains canonical
  { cite := cite
    canonical := canonical
    exists_ := in_scdb && !is_fake
    is_fake := is_fake
    in_scdb := in_scdb }

/-- The loop of `verify_all_citations`: append each verification result in
order and clear `all_valid` whenever a citation does not exist. -/
def verifyAllGo (fake_us_cites scdb_us_cites : List String)
    (acc : List CitationResult) (all_valid : Bool) :
    List String → List CitationResult × Bool
  | [] => (acc, all_valid)
  | cite :: rest =>
    let result := verify_citation cite fake_us_cites scdb_us_cites
    verifyAllGo fake_us_cites scdb_us_cites (acc ++ [result])
      (if !result.exists_ then false else all_valid) rest

/-- Embedding of `verify_all_citations(citations, fake_us_cites, scdb_us_cites)`:
`results` starts empty and `all_valid` starts `True`. -/
def verify_all_citations (citations : List String)
    (fake_us_cites scdb_us_cites : List String) :
    List CitationResult × Bool :=
  verifyAllGo fake_us_cites scdb_us_cites [] true citations

/-- Embedding of `build_canonical_sets(fake_us_cites, scdb_us_cites)` (the set branch;
the dict branch canonicalizes the keys the same way). -/
def build_canonical_sets (fake_us_cites scdb_us_cites : List String) :
    List String × List String :=
  (fake_us_cites.map canonicalize_cite, scdb_us_cites.map canonicalize_cite)

/-! ## `core/schemas/results.py` -/

def STATUS_OK : String := "OK"

def STATUS_SKIPPED_COVERAGE : String := "SKIPPED_COVERAGE"

def STATUS_SKIPPED_DEPENDENCY : String := "SKIPPED_DEPENDENCY"

/-- Embedding of `VALID_STATUSES` (a frozenset in the source; only membership is used). -/
def VALID_STATUSES : List String :=
  [STATUS_OK, STATUS_SKIPPED_COVERAGE, STATUS_SKIPPED_DEPENDENCY]

/-- Embedding of `StepResult`: the result of executing one step.  Field defaults follow
the dataclass defaults; `model_errors` holds the Python list value stored
there (a JSON array).  `timestamp`/`latency_ms` hold wall-clock readings
in the source and stay `0` in the model. -/
structure StepResult where
  step_id : String
  step : String
  variant : Option String := none
  status : String := STATUS_OK
  prompt : String := ""
  raw_response : String := ""
  parsed : Payload := []
  ground_truth : Payload := []
  score : Rat := 0
  correct : Bool := false
  voided : Bool := false
  void_reason : Option String := none
  model : String := ""
  timestamp : Rat := 0
  latency_ms : Rat := 0
  tokens_in : Nat := 0
  tokens_out : Nat := 0
  model_errors : JsonVal := .arr []

/-- Embedding of `StepResult.__post_init__`: constructing a result with a status outside
`VALID_STATUSES` raises `ValueError`.  The raising constructor is modelled
as a validating function: `.error` is the raised exception. -/
def StepResult.validate (r : StepResult) : Except String StepResult :=
  if VALID_STATUSES.contains r.status then
    .ok r
  else
    .error ("Invalid status " ++ r.status)

/-- Embedding of `ChainResult`: the execution outcome for one instance. -/
structure ChainResult where
  instance_id : String
  step_results : List (String × StepResult) := []
  voided : Bool := false
  void_reason : Option String := none

/-! ## `core/schemas/case.py` and `core/schemas/chain.py` -/

/-- Embedding of `CourtCase` (frozen dataclass). -/
structure CourtCase where
  us_cite : String
  case_name : String
  term : Int
  maj_opin_writer : Option Int := none
  case_disposition : Option Int := none
  party_winning : Option Int := none
  issue_area : Option Int := none
  majority_opinion : Option String := none
  lexis_cite : Option String := none
  sct_cite : Option String := none
  importance : Option Rat := none

/-- Embedding of `ShepardsEdge` (frozen dataclass). -/
structure ShepardsEdge where
  cited_case_us_cite : String
  citing_case_us_cite : String
  cited_case_name : Option String := none
  citing_case_name : Option String := none
  shepards : String := ""
  agree : Bool := false
  cited_case_year : Option Int := none
  citing_case_year : Option Int := none

/-- Embedding of `OverruleRecord` (frozen dataclass). -/
structure OverruleRecord where
  overruled_case_us_id : String
  overruled_case_name : String
  overruling_case_name : String
  year_overruled : Int
  overruled_in_full : Bool := true

/-- Embedding of `ChainInstance` (frozen dataclass). The Python attribute `instance`
elsewhere is named `inst` here because `instance` is a Lean keyword. -/
structure ChainInstance where
  id : String
  cited_case : CourtCase
  edge : ShepardsEdge
  citing_case : Option CourtCase := none
  overrule : Option OverruleRecord := none

/-- Embedding of `ChainInstance.has_cited_text` (Tier A). -/
def ChainInstance.has_cited_text (i : ChainInstance) : Bool :=
  i.cited_case.majority_opinion.isSome

/-- Embedding of `ChainInstance.has_citing_text` (Tier B). -/
def ChainInstance.has_citing_text (i : ChainInstance) : Bool :=
  match i.citing_case with
  | some c => c.majority_opinion.isSome
  | none => false

/-- Embedding of `ChainContext`: the per-execution mutable state carrier.  The
`step_results` dict is an insertion-ordered association list whose keys
are kept unique by `ChainContext.set`. -/
structure ChainContext where
  inst : ChainInstance
  step_results : List (String × StepResult) := []

/-- Embedding of `ChainContext.get(step_id)`: `dict.get`, `None` when absent. -/
def ChainContext.get (ctx : ChainContext) (step_id : String) : Option StepResult :=
  match ctx.step_results.find? (fun q => q.1 == step_id) with
  | some q => some q.2
  | none => none

/-- Embedding of `ChainContext.set(step_id, result)`: dict assignment — overwrite in
place when the key exists, append otherwise. -/
def ChainContext.set (ctx : ChainContext) (step_id : String) (result : StepResult) :
    ChainContext :=
  { ctx with step_results :=
      if ctx.step_results.any (fun q => q.1 == step_id) then
        ctx.step_results.map (fun q => if q.1 == step_id then (step_id, result) else q)
      else
        ctx.step_results ++ [(step_id, result)] }

/-- Embedding of `ChainContext.has_step(step_name)`: true when any variant of the
logical step name exists in the results, regardless of its status. -/
def ChainContext.has_step (ctx : ChainContext) (step_name : String) : Bool :=
  ctx.step_results.any (fun q => q.2.step == step_name)

/-- Embedding of `ChainContext.get_by_step(step_name)`: first result with the logical
step name. -/
def ChainContext.get_by_step (ctx : ChainContext) (step_name : String) :
    Option StepResult :=
  match ctx.step_results.find? (fun q => q.2.step == step_name) with
  | some q => some q.2
  | none => none

/-- Embedding of `ChainContext.get_ok_step_ids()`: the step ids recorded with status
`OK` (a Python set; modelled as the key list, used through membership). -/
def ChainContext.get_ok_step_ids (ctx : ChainContext) : List String :=
  (ctx.step_results.filter (fun q => q.2.status == STATUS_OK)).map (fun q => q.1)

/-! ## `chain/steps/base.py` and `chain/backends/base.py` -/

/-- The backend contract: `complete(prompt) -> text` plus `model_id`. -/
structure Backend where
  complete : String → String
  model_id : String

/-- The step contract (`Step` ABC): a record of the abstract methods the
executor calls.  `requires` is a `set[str]` in Python, modelled as a list
used through membership. -/
structure Step where
  step_id : String
  step_name : String
  requires : List String
  check_coverage : ChainContext → Bool
  prompt : ChainContext → String
  parse : String → Payload
  ground_truth : ChainContext → Payload
  score : Payload → Payload → Rat × Bool

/-- Characters of a step id after its first colon, if any. -/
def extractVariantGo : List Char → Option String
  | [] => none
  | c :: cs => if c == ':' then some (String.mk cs) else extractVariantGo cs

/-- Embedding of `Step._extract_variant()`: the part of `step_id` after `":"`. -/
def Step.extract_variant (step : Step) : Option String :=
  extractVariantGo step.step_id.data

/-- Embedding of `Step.create_result(...)`: assemble a `StepResult` with status `OK`;
`model_errors` is `parsed.get("errors", [])`. -/
def Step.create_result (step : Step) (prompt raw_response : String)
    (parsed ground_truth : Payload) (score : Rat) (correct : Bool)
    (model : String) : StepResult :=
  { step_id := step.step_id
    step := step.step_name
    variant := step.extract_variant
    prompt := prompt
    raw_response := raw_response
    parsed := parsed
    ground_truth := ground_truth
    score := score
    correct := correct
    model := model
    model_errors := getD parsed "errors" (.arr []) }

/-! ## `chain/runner/executor.py` -/

/-- Python `repr` of a list of plain step-id strings, as interpolated by
`f"Missing dependencies: {sorted(missing)}"`.  (The escaping `repr`
applies to strings containing quotes is not modelled; step ids do not
contain quotes.) -/
def pyStrListRepr (ids : List String) : String :=
  let quoted := ids.map (fun s => "\x27" ++ s ++ "\x27")
  let inner :=
    match quoted with
    | [] => ""
    | q :: qs => qs.foldl (fun acc r => acc ++ ", " ++ r) q
  "[" ++ inner ++ "]"

/-- The diagnostic recorded on a dependency skip. -/
def missingDepsMsg (sortedMissing : List String) : String :=
  "Missing dependencies: " ++ pyStrListRepr sortedMissing

/-- The fixed diagnostic string used by the S7 gate. -/
def s7VoidReason : String := "S7 citation integrity gate failed"

/-- The chain executor: backend, ordered steps, and the configured gate
(`s7_step_id`) and voiding target (`s6_step_id`). -/
structure ChainExecutor where
  backend : Backend
  steps : List Step
  s7_step_id : String := "s7"
  s6_step_id : String := "s6"

/-- Embedding of `ChainExecutor._execute_step`: coverage gate, dependency gate, then the
prompt/complete/parse/ground-truth/score pipeline with status `OK`. -/
def ChainExecutor.execStep (ex : ChainExecutor) (step : Step) (ctx : ChainContext) :
    StepResult :=
  if !step.check_coverage ctx then
    { step_id := step.step_id
      step := step.step_name
      variant := step.extract_variant
      status := STATUS_SKIPPED_COVERAGE }
  else
    let ok_step_ids := ctx.get_ok_step_ids
    let required := step.requires
    if !required.all (fun r => ok_step_ids.contains r) then
      let missing := required.filter (fun r => !ok_step_ids.contains r)
      { step_id := step.step_id
        step := step.step_name
        variant := step.extract_variant
        status := STATUS_SKIPPED_DEPENDENCY
        model_errors := .arr [.str (missingDepsMsg (pySorted missing))] }
    else
      let prompt := step.prompt ctx
      let raw_response := ex.backend.complete prompt
      let parsed := step.parse raw_response
      let ground_truth := step.ground_truth ctx
      let scored := step.score parsed ground_truth
      step.create_result prompt raw_response parsed ground_truth
        scored.1 scored.2 ex.backend.model_id

/-- Embedding of `ChainExecutor._apply_s7_voiding`: when the just-recorded gate result
has status `OK` and `correct == False`, mark the result stored under the
target id (if present with status `OK`) as voided.  In Python this mutates
the stored `StepResult`; here the updated copy is stored back. -/
def ChainExecutor.applyS7Voiding (ex : ChainExecutor) (ctx : ChainContext)
    (s7_result : StepResult) : ChainContext :=
  if s7_result.status != STATUS_OK then
    ctx
  else if !s7_result.correct then
    match ctx.get ex.s6_step_id with
    | some s6_result =>
      if s6_result.status == STATUS_OK then
        ctx.set ex.s6_step_id
          { s6_result with voided := true, void_reason := some s7VoidReason }
      else ctx
    | none => ctx
  else ctx

/-- The step loop of `ChainExecutor.execute`. -/
def ChainExecutor.executeLoop (ex : ChainExecutor) (steps : List Step)
    (ctx : ChainContext) : ChainContext :=
  match steps with
  | [] => ctx
  | step :: rest =>
    let result := ex.execStep step ctx
    let ctx1 := ctx.set step.step_id result
    let ctx2 :=
      if step.step_id == ex.s7_step_id then ex.applyS7Voiding ctx1 result else ctx1
    ex.executeLoop rest ctx2

/-- Embedding of `ChainExecutor._build_chain_result`: the outcome is voided exactly when
the stored gate result has status `OK` and `correct == False`. -/
def ChainExecutor.buildChainResult (ex : ChainExecutor) (ctx : ChainContext) :
    ChainResult :=
  let s7_result := ctx.get ex.s7_step_id
  let fired :=
    match s7_result with
    | some r => r.status == STATUS_OK && !r.correct
    | none => false
  { instance_id := ctx.inst.id
    step_results := ctx.step_results
    voided := fired
    void_reason := if fired then some s7VoidReason else none }

/-- Embedding of `ChainExecutor.execute(instance)`. -/
def ChainExecutor.execute (ex : ChainExecutor) (inst : ChainInstance) : ChainResult :=
  ex.buildChainResult (ex.executeLoop ex.steps { inst := inst })

/-! ## `chain/steps/s7_citation_integrity.py`

`json.loads` from the Python standard library is modelled by an abstract
`decode : String → Option Payload` parameter: `some fields` is a JSON
object successfully decoded to `fields`, `none` is a `JSONDecodeError`.
A string whose stripped form starts with `"{"` can only decode to an
object, so the parameter covers every outcome `parse` distinguishes.  The
theorems about `parse` hold for every such decode function. -/

/-- The fallback payload of `S7CitationIntegrity.parse`. -/
def s7DefaultPayload : Payload :=
  [("citations_found", .arr []), ("all_valid", .bool true)]

/-- Embedding of `S7CitationIntegrity.parse(raw_response)`: return the decoded object
when the stripped response starts with `"{"`, decodes, and carries a
`"citations_found"` key; in every other case return the fixed default
`{"citations_found": [], "all_valid": True}`. -/
def s7_parse (decode : String → Option Payload) (raw_response : String) : Payload :=
  match pyStrip raw_response.data with
  | '{' :: _ =>
    match decode raw_response with
    | some data => if hasKey data "citations_found" then data else s7DefaultPayload
    | none => s7DefaultPayload
  | _ => s7DefaultPayload

/-- Embedding of `S7CitationIntegrity.score(parsed, ground_truth)`: `(1.0, True)` when
`parsed.get("all_valid", False)` is truthy, `(0.0, False)` otherwise.
Note there is no special case for an `"errors"` key. -/
def s7_score (parsed _ground_truth : Payload) : Rat × Bool :=
  if (getD parsed "all_valid" (.bool false)).truthy then (1, true) else (0, false)

/-- Embedding of `S7CitationIntegrity.prompt(ctx)`: embed the four S6 IRAC fields.  In
Python a non-string field would raise `TypeError` inside `"\n".join`;
that exception is not modelled (`strD` reads `""`), and no theorem
depends on the prompt text. -/
def s7_prompt (ctx : ChainContext) : String :=
  match ctx.get "s6" with
  | none => "[S7: No S6 output available]"
  | some s6_result =>
    let parsed := s6_result.parsed
    let combined :=
      (getD parsed "issue" (.str "")).strD ++ "\n" ++
      (getD parsed "rule" (.str "")).strD ++ "\n" ++
      (getD parsed "application" (.str "")).strD ++ "\n" ++
      (getD parsed "conclusion" (.str "")).strD
    "[S7: Verify citations in S6 output]\n\n" ++ combined

/-- Embedding of `S7CitationIntegrity.execute_verification(s6_text)`: the deterministic
citation check — extract citations from the S6 text and verify them
against the canonical reference sets.  This function exists on the class
but is not part of the Step contract and is never called by the executor. -/
def s7_execute_verification (canonical_fake canonical_scdb : List String)
    (s6_text : String) : Payload :=
  let citations := extract_citations s6_text
  let verified := verify_all_citations citations canonical_fake canonical_scdb
  [("citations_found",
     .arr (verified.1.map (fun r => .obj [("cite", .str r.cite), ("exists", .bool r.exists_)]))),
   ("all_valid", .bool verified.2)]

/-- Embedding of `S7CitationIntegrity.ground_truth(ctx)`. -/
def s7_ground_truth (_ctx : ChainContext) : Payload :=
  [("all_valid", .bool true)]

/-- The `S7CitationIntegrity` instance seen through the Step contract.
The verification sets `_canonical_fake`/`_canonical_scdb` are stored on
the class but none of the contract methods read them; only
`s7_execute_verification` does. -/
def mkS7Step (decode : String → Option Payload)
    (_canonical_fake _canonical_scdb : List String) : Step :=
  { step_id := "s7"
    step_name := "s7"
    requires := ["s6"]
    check_coverage := fun ctx => ctx.inst.has_cited_text
    prompt := s7_prompt
    parse := s7_parse decode
    ground_truth := s7_ground_truth
    score := s7_score }

/-! ## The `score` methods of the concrete steps

S1-S6 all begin with `if "errors" in parsed: return (0.0, False)`.
A `none` result models a Python exception raised on an ill-typed payload
(for example `canonicalize_cite` applied to a non-string). -/

/-- Python `is None` / `is not None` on a payload value. -/
def JsonVal.isNull : JsonVal → Bool
  | .null => true
  | _ => false

/-- Embedding of `S1KnownAuthority.score`: canonicalized citation match plus exact term
match; half credit when exactly one of the two matches. -/
def s1_score (parsed ground_truth : Payload) : Option (Rat × Bool) :=
  if hasKey parsed "errors" then some (0, false)
  else
    match getD parsed "us_cite" (.str ""), getD ground_truth "us_cite" (.str "") with
    | .str p, .str t =>
      let pred_cite := canonicalize_cite p
      let true_cite := canonicalize_cite t
      let cite_match := pred_cite == true_cite && pred_cite != ""
      let pred_term := getD parsed "term" .null
      let true_term := getD ground_truth "term" .null
      let term_match := pred_term.pyEq true_term && !pred_term.isNull
      if cite_match && term_match then some (1, true)
      else if cite_match || term_match then some (1/2, false)
      else some (0, false)
    | _, _ => none

/-- The rank-finding loop of `S2UnknownAuthority.score`: the 1-based index
of the first predicted case whose canonical citation matches; the outer
`Option` models the exception raised on an ill-typed prediction entry. -/
def s2FindRank (true_canonical : String) : Nat → List JsonVal → Option (Option Nat)
  | _, [] => some none
  | i, c :: cs =>
    match c with
    | .obj fields =>
      match getD fields "us_cite" (.str "") with
      | .str p =>
        if canonicalize_cite p == true_canonical then some (some (i + 1))
        else s2FindRank true_canonical (i + 1) cs
      | _ => none
    | _ => none

/-- Embedding of `S2UnknownAuthority.score`: MRR over the predicted `citing_cases` with
`correct = hit@10`; also stores extended metrics into the parsed payload,
which is returned alongside the score pair here because Python mutates
`parsed` in place. -/
def s2_score (parsed ground_truth : Payload) : Option ((Rat × Bool) × Payload) :=
  if hasKey parsed "errors" then some ((0, false), parsed)
  else
    let citing_cases := getD parsed "citing_cases" (.arr [])
    let true_cite := getD ground_truth "citing_case_us_cite" (.str "")
    if !true_cite.truthy then some ((0, false), parsed)
    else
      match true_cite with
      | .str t =>
        let true_canonical := canonicalize_cite t
        match citing_cases with
        | .arr cases =>
          match s2FindRank true_canonical 0 cases with
          | none => none
          | some rank =>
            let mrr : Rat := match rank with | none => 0 | some r => 1 / r
            let hit10 := match rank with | none => false | some r => r ≤ 10
            let metrics : JsonVal := .obj
              [("rank", match rank with | none => .null | some r => .num r),
               ("mrr", .num mrr),
               ("hit_at_1", .bool (match rank with | none => false | some r => r ≤ 1)),
               ("hit_at_5", .bool (match rank with | none => false | some r => r ≤ 5)),
               ("hit_at_10", .bool hit10),
               ("hit_at_20", .bool (match rank with | none => false | some r => r ≤ 20))]
            some ((mrr, hit10), setKey parsed "metrics" metrics)
        | _ => none
      | _ => none

/-- Embedding of `S3ValidateAuthority.score`: exact match on `is_overruled`. -/
def s3_score (parsed ground_truth : Payload) : Rat × Bool :=
  if hasKey parsed "errors" then (0, false)
  else
    let pred_overruled := getD parsed "is_overruled" (.bool false)
    let true_overruled := getD ground_truth "is_overruled" (.bool false)
    if pred_overruled.pyEq true_overruled then (1, true) else (0, false)

/-- Embedding of `S4FactExtraction.score`: exact match on lowercased `disposition` and
`party_winning`, half credit for one of the two. -/
def s4_score (parsed ground_truth : Payload) : Option (Rat × Bool) :=
  if hasKey parsed "errors" then some (0, false)
  else
    let pred_disposition := getD parsed "disposition" (.str "")
    let pred_party := getD parsed "party_winning" (.str "")
    let td0 := getD ground_truth "disposition" (.str "")
    let tp0 := getD ground_truth "party_winning" (.str "")
    let td := if td0.isNull then .str "" else td0
    let tp := if tp0.isNull then .str "" else tp0
    match td, tp with
    | .str tds, .str tps =>
      let disposition_match := pred_disposition.pyEq (.str (String.mk (pyLower tds.data)))
      let party_match := pred_party.pyEq (.str (String.mk (pyLower tps.data)))
      if disposition_match && party_match then some (1, true)
      else if disposition_match || party_match then some (1/2, false)
      else some (0, false)
    | _, _ => none

/-- Embedding of `_score_s5` (shared by `S5DistinguishCB` and `S5DistinguishRAG`):
exact match on `agrees`. -/
def s5_score (parsed ground_truth : Payload) : Rat × Bool :=
  if hasKey parsed "errors" then (0, false)
  else
    let pred_agrees := getD parsed "agrees" (.bool false)
    let true_agrees := getD ground_truth "agrees" (.bool false)
    if pred_agrees.pyEq true_agrees then (1, true) else (0, false)

/-- Embedding of `S6IRACSynthesis.score`: 0.25 per IRAC component whose stripped string
value is longer than 10 characters; correct when at least 0.75. -/
def s6_score (parsed _ground_truth : Payload) : Rat × Bool :=
  if hasKey parsed "errors" then (0, false)
  else
    let component_score := ["issue", "rule", "application", "conclusion"].foldl
      (fun acc component =>
        match getD parsed component (.str "") with
        | .str v => if 10 < (pyStrip v.data).length then acc + 1/4 else acc
        | _ => acc) (0 : Rat)
    (component_score, decide ((3 : Rat)/4 ≤ component_score))

/-- Embedding of `StubStep.score`: the configured pair, whatever the payload. -/
def stub_score (score_value : Rat) (always_correct : Bool)
    (_parsed _ground_truth : Payload) : Rat × Bool :=
  (score_value, always_correct)

/-- A `StubStep` instance seen through the Step contract
(`chain/steps/stub_step.py`), used to build concrete executions. -/
def mkStubStep (name : String) (requiresIds : List String) (always_correct : Bool)
    (score_value : Rat) (variant : Option String) (require_citing_text : Bool)
    (parsed_response ground_truth_data : Payload) : Step :=
  let sid := match variant with | some v => name ++ ":" ++ v | none => name
  { step_id := sid
    step_name := name
    requires := requiresIds
    check_coverage := fun ctx =>
      if require_citing_text then ctx.inst.has_citing_text else true
    prompt := fun _ => "[STUB PROMPT for " ++ sid ++ "]"
    parse := fun _ => parsed_response
    ground_truth := fun _ => ground_truth_data
    score := stub_score score_value always_correct }

/-! ## Concrete fixtures

Concrete instances (built from the stub step, the mock backend shape and
the Brown v. Board pair the repository uses as its running example) on
which the theorems below are instantiated. -/

/-- Invariant: no stored result is voided. -/
def ctxAllUnvoided (ctx : ChainContext) : Prop :=
  ∀ p ∈ ctx.step_results, p.2.voided = false

/-- A decode function under which every response fails to decode. -/
def decodeNone : String → Option Payload :=
  fun _ => none

/-- A cited case with opinion text (Tier A). -/
def caseW : CourtCase :=
  { us_cite := "347 U.S. 483"
    case_name := "Brown v. Board of Education"
    term := 1954
    majority_opinion := some "The majority opinion text." }

/-- An edge record for the fixture instance. -/
def edgeW : ShepardsEdge :=
  { cited_case_us_cite := "347 U.S. 483"
    citing_case_us_cite := "349 U.S. 294" }

/-- A fixture instance with cited text but no citing case. -/
def instW : ChainInstance :=
  { id := "pair::347_us_483::349_us_294"
    cited_case := caseW
    edge := edgeW }

/-- A backend returning a fixed non-JSON completion. -/
def backendW : Backend :=
  { complete := fun _ => "not json"
    model_id := "mock-model" }

/-- Stub S6: no dependencies, always correct. -/
def s6W : Step :=
  mkStubStep "s6" [] true 1 none false [] []

/-- Stub S7 gate: requires S6, always incorrect (the gate fires). -/
def s7stubW : Step :=
  mkStubStep "s7" ["s6"] false 0 none false [] []

/-- A stub step skipped for coverage (requires citing text). -/
def covW : Step :=
  mkStubStep "s2" [] true 1 none true [] []

/-- A stub step skipped for dependencies (`s1`, `s4` never run). -/
def depW : Step :=
  mkStubStep "s5" ["s1", "s4"] true 1 none false [] []

/-- Fixture executor whose gate fires on `instW`. -/
def exW1 : ChainExecutor :=
  { backend := backendW, steps := [s6W, s7stubW] }

/-- Fixture executor whose two steps are both skipped on `instW`. -/
def exW2 : ChainExecutor :=
  { backend := backendW, steps := [covW, depW] }

/-- Fixture executor running the real S7 step after the stub S6. -/
def exW3 : ChainExecutor :=
  { backend := backendW, steps := [s6W, mkS7Step decodeNone [] []] }

/-- The S6 result produced by `exW1` before the gate runs. -/
def r6W : StepResult :=
  exW1.execStep s6W { inst := instW }

/-- An empty fixture context. -/
def ctxW : ChainContext :=
  { inst := instW }

/-- A result recorded under a variant id with a non-OK status. -/
def resC5 : StepResult :=
  { step_id := "s5:cb", step := "s5", status := STATUS_SKIPPED_COVERAGE }

/-- A context whose only record is the skipped `s5:cb` variant. -/
def ctxC5 : ChainContext :=
  { inst := instW, step_results := [("s5:cb", resC5)] }


/-! ## Helper lemmas: the lexicographic string order and `pySorted` -/

theorem charLtB_irrefl (c : Char) : charLtB c c = false := by
  simp [charLtB]

theorem charLtB_trans {a b c : Char} (h1 : charLtB a b = true)
    (h2 : charLtB b c = true) : charLtB a c = true := by
  simp only [charLtB, decide_eq_true_eq] at *
  omega

theorem strLtB_irrefl (s : List Char) : strLtB s s = false := by
  induction s with
  | nil => rfl
  | cons c cs ih => simp [strLtB, charLtB_irrefl, ih]

theorem strLtB_trans : ∀ {a b c : List Char}, strLtB a b = true →
    strLtB b c = true → strLtB a c = true
  | [], [], _, h1, _ => by simp [strLtB] at h1
  | [], _ :: _, [], _, h2 => by simp [strLtB] at h2
  | [], _ :: _, _ :: _, _, _ => by simp [strLtB]
  | _ :: _, [], _, h1, _ => by simp [strLtB] at h1
  | _ :: _, _ :: _, [], _, h2 => by simp [strLtB] at h2
  | x :: xs, y :: ys, z :: zs, h1, h2 => by
    simp only [strLtB, Bool.or_eq_true, Bool.and_eq_true, beq_iff_eq] at *
    rcases h1 with h1 | ⟨rfl, h1⟩
    · rcases h2 with h2 | ⟨rfl, _⟩
      · exact Or.inl (charLtB_trans h1 h2)
      · exact Or.inl h1
    · rcases h2 with h2 | ⟨rfl, h2⟩
      · exact Or.inl h2
      · exact Or.inr ⟨rfl, strLtB_trans h1 h2⟩

theorem strLtB_trichotomy : ∀ a b : List Char,
    strLtB a b = true ∨ a = b ∨ strLtB b a = true
  | [], [] => Or.inr (Or.inl rfl)
  | [], _ :: _ => Or.inl (by simp [strLtB])
  | _ :: _, [] => Or.inr (Or.inr (by simp [strLtB]))
  | x :: xs, y :: ys => by
    rcases Nat.lt_trichotomy x.toNat y.toNat with h | h | h
    · exact Or.inl (by simp [strLtB, charLtB, h])
    · have hxy : x = y := Char.eq_of_val_eq (UInt32.toNat.inj h)
      subst hxy
      rcases strLtB_trichotomy xs ys with h2 | h2 | h2
      · exact Or.inl (by simp [strLtB, h2])
      · exact Or.inr (Or.inl (by rw [h2]))
      · exact Or.inr (Or.inr (by simp [strLtB, h2]))
    · exact Or.inr (Or.inr (by simp [strLtB, charLtB, h]))

theorem strLtB_asymm {a b : List Char} (h : strLtB a b = true) :
    strLtB b a = false := by
  by_contra hc
  have hba : strLtB b a = true := by
    cases hab : strLtB b a with
    | false => exact absurd hab hc
    | true => rfl
  have : strLtB a a = true := strLtB_trans h hba
  rw [strLtB_irrefl] at this
  exact Bool.false_ne_true this

theorem strLeB_total (a b : String) : strLeB a b = true ∨ strLeB b a = true := by
  rcases strLtB_trichotomy a.data b.data with h | h | h
  · exact Or.inl (by simp [strLeB, strLtB_asymm h])
  · exact Or.inl (by simp [strLeB, h, strLtB_irrefl])
  · exact Or.inr (by simp [strLeB, strLtB_asymm h])

theorem strLeB_trans {a b c : String} (h1 : strLeB a b = true)
    (h2 : strLeB b c = true) : strLeB a c = true := by
  simp only [strLeB, Bool.not_eq_true', Bool.not_eq_true] at *
  by_contra hc
  have hca : strLtB c.data a.data = true := by
    cases h : strLtB c.data a.data with
    | false => exact absurd h hc
    | true => rfl
  rcases strLtB_trichotomy b.data c.data with h3 | h3 | h3
  · have h4 := strLtB_trans h3 hca
    rw [h1] at h4
    exact Bool.false_ne_true h4
  · rw [← h3] at hca
    rw [h1] at hca
    exact Bool.false_ne_true hca
  · rw [h2] at h3
    exact Bool.false_ne_true h3

theorem strLeB_of_not {x y : String} (h : strLeB x y = false) : strLeB y x = true := by
  rcases strLeB_total x y with h2 | h2
  · rw [h] at h2
    exact absurd h2 Bool.false_ne_true
  · exact h2

theorem mem_insertSorted {x a : String} : ∀ {l : List String},
    a ∈ insertSorted x l ↔ a = x ∨ a ∈ l
  | [] => by simp [insertSorted]
  | y :: ys => by
    simp only [insertSorted]
    by_cases h : strLeB x y = true
    · simp [h]
    · rw [if_neg h]
      simp only [List.mem_cons, mem_insertSorted]
      tauto

theorem perm_insertSorted (x : String) : ∀ l : List String,
    (insertSorted x l).Perm (x :: l)
  | [] => List.Perm.refl _
  | y :: ys => by
    simp only [insertSorted]
    by_cases h : strLeB x y = true
    · rw [if_pos h]
    · rw [if_neg h]
      exact ((perm_insertSorted x ys).cons y).trans (List.Perm.swap x y ys)

theorem pairwise_insertSorted (x : String) : ∀ {l : List String},
    l.Pairwise (fun a b => strLeB a b = true) →
    (insertSorted x l).Pairwise (fun a b => strLeB a b = true)
  | [], _ => by simp [insertSorted]
  | y :: ys, h => by
    simp only [insertSorted]
    rcases List.pairwise_cons.mp h with ⟨hy, hys⟩
    by_cases hxy : strLeB x y = true
    · rw [if_pos hxy]
      refine List.pairwise_cons.mpr ⟨?_, h⟩
      intro b hb
      rcases List.mem_cons.mp hb with rfl | hb
      · exact hxy
      · exact strLeB_trans hxy (hy b hb)
    · rw [if_neg hxy]
      refine List.pairwise_cons.mpr ⟨?_, pairwise_insertSorted x hys⟩
      intro b hb
      rcases mem_insertSorted.mp hb with rfl | hb
      · exact strLeB_of_not (Bool.eq_false_iff.mpr hxy)
      · exact hy b hb

theorem perm_pySorted : ∀ l : List String, (pySorted l).Perm l
  | [] => List.Perm.refl _
  | x :: xs =>
    (perm_insertSorted x (pySorted xs)).trans ((perm_pySorted xs).cons x)

theorem pairwise_pySorted : ∀ l : List String,
    (pySorted l).Pairwise (fun a b => strLeB a b = true)
  | [] => List.Pairwise.nil
  | x :: xs => pairwise_insertSorted x (pairwise_pySorted xs)

/-! ## Helper lemmas: the step-results dictionary -/

theorem find?_cons_pos (p : String × StepResult → Bool) (a : String × StepResult)
    (l : List (String × StepResult)) (h : p a = true) :
    List.find? p (a :: l) = some a :=
  List.find?_cons_of_pos l h

theorem find?_cons_neg (p : String × StepResult → Bool) (a : String × StepResult)
    (l : List (String × StepResult)) (h : p a = false) :
    List.find? p (a :: l) = List.find? p l :=
  List.find?_cons_of_neg l (by simp [h])

theorem find?_replaceKey_self {k : String} {v : StepResult} :
    ∀ {l : List (String × StepResult)}, l.any (fun q => q.1 == k) = true →
    (l.map (fun q => if q.1 == k then (k, v) else q)).find? (fun q => q.1 == k) =
      some (k, v)
  | [], h => by simp at h
  | q :: l, h => by
    by_cases hq : (q.1 == k) = true
    · simp only [List.map_cons, if_pos hq]
      exact find?_cons_pos (fun q => q.1 == k) (k, v) _ (beq_self_eq_true k)
    · have hq2 : (q.1 == k) = false := Bool.eq_false_iff.mpr hq
      have hl : l.any (fun q => q.1 == k) = true := by
        rw [List.any_cons, hq2] at h
        simpa using h
      simp only [List.map_cons, if_neg hq]
      rw [find?_cons_neg (fun q => q.1 == k) q _ hq2]
      exact find?_replaceKey_self hl

theorem find?_replaceKey_ne {k k2 : String} {v : StepResult} (hne : k2 ≠ k) :
    ∀ l : List (String × StepResult),
    (l.map (fun q => if q.1 == k then (k, v) else q)).find? (fun q => q.1 == k2) =
      l.find? (fun q => q.1 == k2)
  | [] => rfl
  | q :: l => by
    by_cases hq : (q.1 == k) = true
    · have hqk : q.1 = k := beq_iff_eq.mp hq
      have hq2 : (q.1 == k2) = false := by
        rw [hqk]
        exact beq_eq_false_iff_ne.mpr (Ne.symm hne)
      have hk2 : ((k, v).1 == k2) = false := beq_eq_false_iff_ne.mpr (Ne.symm hne)
      simp only [List.map_cons, if_pos hq]
      rw [find?_cons_neg (fun q => q.1 == k2) (k, v) _ hk2,
        find?_cons_neg (fun q => q.1 == k2) q _ hq2]
      exact find?_replaceKey_ne hne l
    · simp only [List.map_cons, if_neg hq]
      by_cases hq2 : (q.1 == k2) = true
      · rw [find?_cons_pos (fun q => q.1 == k2) q _ hq2,
          find?_cons_pos (fun q => q.1 == k2) q _ hq2]
      · have hq2f : (q.1 == k2) = false := Bool.eq_false_iff.mpr hq2
        rw [find?_cons_neg (fun q => q.1 == k2) q _ hq2f,
          find?_cons_neg (fun q => q.1 == k2) q _ hq2f]
        exact find?_replaceKey_ne hne l

theorem ChainContext.get_set_self (ctx : ChainContext) (k : String) (v : StepResult) :
    (ctx.set k v).get k = some v := by
  unfold ChainContext.set ChainContext.get
  by_cases h : (ctx.step_results.any fun q => q.1 == k) = true
  · rw [if_pos h, find?_replaceKey_self h]
  · rw [if_neg h]
    rw [List.find?_append]
    have hnone : ctx.step_results.find? (fun q => q.1 == k) = none :=
      List.find?_eq_none.mpr (by
        intro x hx hpx
        exact h (List.any_eq_true.mpr ⟨x, hx, hpx⟩))
    rw [hnone, find?_cons_pos (fun q => q.1 == k) (k, v) _ (beq_self_eq_true k)]
    rfl

theorem ChainContext.get_set_ne (ctx : ChainContext) {k k2 : String}
    (v : StepResult) (hne : k2 ≠ k) : (ctx.set k v).get k2 = ctx.get k2 := by
  unfold ChainContext.set ChainContext.get
  by_cases h : (ctx.step_results.any fun q => q.1 == k) = true
  · rw [if_pos h, find?_replaceKey_ne hne]
  · rw [if_neg h]
    rw [List.find?_append]
    have hk2 : ((k, v).1 == k2) = false := beq_eq_false_iff_ne.mpr (Ne.symm hne)
    rw [show ([((k, v) : String × StepResult)].find? fun q => q.1 == k2) = none by
      rw [find?_cons_neg (fun q => q.1 == k2) (k, v) _ hk2]
      rfl]
    cases ctx.step_results.find? fun q => q.1 == k2 <;> rfl

theorem ChainContext.mem_set (ctx : ChainContext) {k : String} {v : StepResult}
    {p : String × StepResult} (hp : p ∈ (ctx.set k v).step_results) :
    p ∈ ctx.step_results ∨ p = (k, v) := by
  unfold ChainContext.set at hp
  by_cases h : (ctx.step_results.any fun q => q.1 == k) = true
  · rw [if_pos h] at hp
    rcases List.mem_map.mp hp with ⟨q, hq, hfq⟩
    by_cases hqk : (q.1 == k) = true
    · rw [if_pos hqk] at hfq
      exact Or.inr hfq.symm
    · rw [if_neg hqk] at hfq
      exact Or.inl (hfq ▸ hq)
  · rw [if_neg h] at hp
    rcases List.mem_append.mp hp with hp | hp
    · exact Or.inl hp
    · simp at hp
      exact Or.inr hp

/-! ## Helper lemmas: the executor loop -/

theorem execStep_voided_false (ex : ChainExecutor) (step : Step) (ctx : ChainContext) :
    (ex.execStep step ctx).voided = false := by
  simp only [ChainExecutor.execStep]
  split
  · rfl
  · split
    · rfl
    · rfl

theorem executeLoop_append (ex : ChainExecutor) :
    ∀ (a b : List Step) (ctx : ChainContext),
    ex.executeLoop (a ++ b) ctx = ex.executeLoop b (ex.executeLoop a ctx)
  | [], _, _ => rfl
  | step :: rest, b, ctx => by
    rw [List.cons_append]
    simp only [ChainExecutor.executeLoop]
    exact executeLoop_append ex rest b _

theorem applyS7Voiding_of_notFired (ex : ChainExecutor) (ctx : ChainContext)
    {r : StepResult} (h : ¬(r.status = STATUS_OK ∧ r.correct = false)) :
    ex.applyS7Voiding ctx r = ctx := by
  unfold ChainExecutor.applyS7Voiding
  by_cases hs : r.status = STATUS_OK
  · have hc : r.correct = true := by
      cases hcorr : r.correct
      · exact absurd ⟨hs, hcorr⟩ h
      · rfl
    rw [if_neg (by simp [hs]), if_neg (by simp [hc])]
  · rw [if_pos (by simp [hs])]

theorem loop_get_frame (ex : ChainExecutor) :
    ∀ (steps : List Step) (ctx : ChainContext) {id : String},
    ex.s7_step_id ∉ steps.map Step.step_id → id ∉ steps.map Step.step_id →
    (ex.executeLoop steps ctx).get id = ctx.get id
  | [], _, _, _, _ => rfl
  | step :: rest, ctx, id, h7, hid => by
    simp only [List.map_cons, List.mem_cons, not_or] at h7 hid
    simp only [ChainExecutor.executeLoop]
    rw [if_neg (by simp [beq_eq_false_iff_ne.mpr (fun he => h7.1 he.symm)])]
    rw [loop_get_frame ex rest _ h7.2 hid.2]
    exact ChainContext.get_set_ne ctx _ hid.1

theorem allUnvoided_set {ctx : ChainContext} {k : String} {v : StepResult}
    (h : ctxAllUnvoided ctx) (hv : v.voided = false) :
    ctxAllUnvoided (ctx.set k v) := by
  intro p hp
  rcases ChainContext.mem_set ctx hp with hp | rfl
  · exact h p hp
  · exact hv

theorem allUnvoided_get {ctx : ChainContext} (h : ctxAllUnvoided ctx) {id : String}
    {r : StepResult} (hr : ctx.get id = some r) : r.voided = false := by
  unfold ChainContext.get at hr
  cases hf : ctx.step_results.find? (fun q => q.1 == id) with
  | none => rw [hf] at hr; cases hr
  | some q =>
    rw [hf] at hr
    cases hr
    exact h q (List.mem_of_find?_eq_some hf)

theorem noVoidLoop (ex : ChainExecutor) :
    ∀ (steps : List Step) (ctx : ChainContext),
    ex.s7_step_id ∉ steps.map Step.step_id → ctxAllUnvoided ctx →
    ctxAllUnvoided (ex.executeLoop steps ctx)
  | [], _, _, h => h
  | step :: rest, ctx, h7, hctx => by
    simp only [List.map_cons, List.mem_cons, not_or] at h7
    simp only [ChainExecutor.executeLoop]
    rw [if_neg (by simp [beq_eq_false_iff_ne.mpr (fun he => h7.1 he.symm)])]
    exact noVoidLoop ex rest _ h7.2
      (allUnvoided_set hctx (execStep_voided_false ex step ctx))

theorem get_isSome_set (ctx : ChainContext) (k : String) (v : StepResult)
    (id : String) :
    ((ctx.set k v).get id).isSome = true ↔
      (ctx.get id).isSome = true ∨ id = k := by
  by_cases hid : id = k
  · subst hid
    rw [ChainContext.get_set_self]
    simp
  · rw [ChainContext.get_set_ne ctx v hid]
    simp [hid]

theorem applyS7Voiding_get_isSome (ex : ChainExecutor) (ctx : ChainContext)
    (r : StepResult) (id : String) :
    ((ex.applyS7Voiding ctx r).get id).isSome = (ctx.get id).isSome := by
  unfold ChainExecutor.applyS7Voiding
  split
  · rfl
  · split
    · split
      · rename_i s6r heq
        split
        · by_cases hid : id = ex.s6_step_id
          · subst hid
            rw [ChainContext.get_set_self, heq]
            rfl
          · rw [ChainContext.get_set_ne ctx _ hid]
        · rfl
      · rfl
    · rfl

theorem loop_get_isSome (ex : ChainExecutor) :
    ∀ (steps : List Step) (ctx : ChainContext) {id : String},
    (id ∈ steps.map Step.step_id ∨ (ctx.get id).isSome = true) →
    ((ex.executeLoop steps ctx).get id).isSome = true
  | [], _, id, h => by
    rcases h with h | h
    · simp at h
    · exact h
  | step :: rest, ctx, id, h => by
    have hnext : id ∈ rest.map Step.step_id ∨
        ((ctx.set step.step_id (ex.execStep step ctx)).get id).isSome = true := by
      rcases h with h | h
      · rw [List.map_cons] at h
        rcases List.mem_cons.mp h with rfl | h2
        · exact Or.inr ((get_isSome_set _ _ _ _).mpr (Or.inr rfl))
        · exact Or.inl h2
      · exact Or.inr ((get_isSome_set _ _ _ _).mpr (Or.inl h))
    simp only [ChainExecutor.executeLoop]
    split
    · apply loop_get_isSome ex rest
      rcases hnext with h2 | h2
      · exact Or.inl h2
      · refine Or.inr ?_
        rw [applyS7Voiding_get_isSome]
        exact h2
    · exact loop_get_isSome ex rest _ hnext

theorem loop_get_isSome_src (ex : ChainExecutor) :
    ∀ (steps : List Step) (ctx : ChainContext) {id : String},
    ((ex.executeLoop steps ctx).get id).isSome = true →
    (ctx.get id).isSome = true ∨ id ∈ steps.map Step.step_id
  | [], _, _, h => Or.inl h
  | step :: rest, ctx, id, h => by
    simp only [ChainExecutor.executeLoop] at h
    have hset : ((ctx.set step.step_id (ex.execStep step ctx)).get id).isSome = true →
        (ctx.get id).isSome = true ∨ id ∈ (step :: rest).map Step.step_id := by
      intro h2
      rcases (get_isSome_set _ _ _ _).mp h2 with h3 | rfl
      · exact Or.inl h3
      · exact Or.inr (by simp)
    split at h
    · rcases loop_get_isSome_src ex rest _ h with h2 | h2
      · rw [applyS7Voiding_get_isSome] at h2
        exact hset h2
      · exact Or.inr (by simp [h2])
    · rcases loop_get_isSome_src ex rest _ h with h2 | h2
      · exact hset h2
      · exact Or.inr (by simp [h2])

theorem verifyAllGo_spec (fake_us_cites scdb_us_cites : List String) :
    ∀ (cs : List String) (acc : List CitationResult) (b : Bool),
    verifyAllGo fake_us_cites scdb_us_cites acc b cs =
      (acc ++ cs.map (fun c => verify_citation c fake_us_cites scdb_us_cites),
       b && (cs.map (fun c => verify_citation c fake_us_cites scdb_us_cites)).all
         (fun r => r.exists_))
  | [], acc, b => by simp [verifyAllGo]
  | c :: rest, acc, b => by
    simp only [verifyAllGo, List.map_cons, List.all_cons]
    rw [verifyAllGo_spec fake_us_cites scdb_us_cites rest]
    refine Prod.ext ?_ ?_
    · simp
    · cases he : (verify_citation c fake_us_cites scdb_us_cites).exists_ <;>
        cases b <;> simp [he]

/-! ## Helper lemmas: de-duplication by canonical form -/

theorem dedupByCanonical_sublist (seen : List String) :
    ∀ l : List String, (dedupByCanonical seen l).Sublist l
  | [] => List.Sublist.slnil
  | c :: cs => by
    simp only [dedupByCanonical]
    split
    · exact (dedupByCanonical_sublist seen cs).cons c
    · exact (dedupByCanonical_sublist _ cs).cons₂ c

theorem dedupByCanonical_not_seen {seen : List String} :
    ∀ {l : List String} {x : String}, x ∈ dedupByCanonical seen l →
    seen.contains (canonicalize_cite x) = false
  | [], x, hx => by simp [dedupByCanonical] at hx
  | c :: cs, x, hx => by
    simp only [dedupByCanonical] at hx
    split at hx
    · exact dedupByCanonical_not_seen hx
    · rename_i hc
      have hcf : seen.contains (canonicalize_cite c) = false :=
        Bool.eq_false_iff.mpr hc
      rcases List.mem_cons.mp hx with rfl | hx
      · exact hcf
      · have h2 := dedupByCanonical_not_seen hx
        rw [List.contains_cons] at h2
        exact (Bool.or_eq_false_iff.mp h2).2

theorem dedupByCanonical_nodup_canon (seen : List String) :
    ∀ l : List String, ((dedupByCanonical seen l).map canonicalize_cite).Nodup
  | [] => List.nodup_nil
  | c :: cs => by
    simp only [dedupByCanonical]
    split
    · exact dedupByCanonical_nodup_canon seen cs
    · rw [List.map_cons]
      refine List.nodup_cons.mpr ⟨?_, dedupByCanonical_nodup_canon _ cs⟩
      intro hmem
      rcases List.mem_map.mp hmem with ⟨y, hy, hcy⟩
      have h2 := dedupByCanonical_not_seen hy
      rw [List.contains_cons] at h2
      have := (Bool.or_eq_false_iff.mp h2).1
      rw [hcy] at this
      rw [beq_self_eq_true] at this
      cases this

theorem dedupByCanonical_covers {seen : List String} :
    ∀ {l : List String} {m : String}, m ∈ l →
    seen.contains (canonicalize_cite m) = true ∨
      canonicalize_cite m ∈ (dedupByCanonical seen l).map canonicalize_cite
  | [], m, hm => by simp at hm
  | c :: cs, m, hm => by
    simp only [dedupByCanonical]
    rcases List.mem_cons.mp hm with rfl | hm
    · split
      · rename_i hc
        exact Or.inl hc
      · exact Or.inr (by simp)
    · split
      · exact dedupByCanonical_covers hm
      · rcases @dedupByCanonical_covers (canonicalize_cite c :: seen) cs m hm with h2 | h2
        · rw [List.contains_cons] at h2
          rcases Bool.or_eq_true_iff.mp h2 with h3 | h3
          · exact Or.inr (by simp [beq_iff_eq.mp h3])
          · exact Or.inl h3
        · exact Or.inr (by rw [List.map_cons]; exact List.mem_cons_of_mem _ h2)

theorem dedupByCanonical_firstOcc {seen : List String} :
    ∀ {l : List String} {x : String}, x ∈ dedupByCanonical seen l →
    (l.filter (fun y => canonicalize_cite y == canonicalize_cite x)).head? = some x
  | [], x, hx => by simp [dedupByCanonical] at hx
  | c :: cs, x, hx => by
    simp only [dedupByCanonical] at hx
    split at hx
    · rename_i hc
      have hxs := dedupByCanonical_not_seen hx
      have hne : (canonicalize_cite c == canonicalize_cite x) = false := by
        by_contra hcc
        have hcc2 : (canonicalize_cite c == canonicalize_cite x) = true := by
          cases h : canonicalize_cite c == canonicalize_cite x
          · exact absurd h hcc
          · rfl
        rw [beq_iff_eq.mp hcc2] at hc
        rw [hc] at hxs
        cases hxs
      rw [List.filter_cons, hne]
      exact dedupByCanonical_firstOcc hx
    · rcases List.mem_cons.mp hx with rfl | hx
      · rw [List.filter_cons, beq_self_eq_true]
        rfl
      · have hxs := dedupByCanonical_not_seen hx
        rw [List.contains_cons] at hxs
        have hne := (Bool.or_eq_false_iff.mp hxs).1
        have hne2 : (canonicalize_cite c == canonicalize_cite x) = false := by
          cases h : canonicalize_cite c == canonicalize_cite x
          · rfl
          · rw [beq_iff_eq.mp h] at hne
            rw [beq_self_eq_true] at hne
            cases hne
        rw [List.filter_cons, hne2]
        exact dedupByCanonical_firstOcc hx

/-! ## Claim theorems -/

/-- C9: `canonicalize_cite` maps the spaced-abbreviation variant and the
compact variant of the same citation to the same canonical form:
both `"347 U. S. 483"` and `"347 U.S. 483"` canonicalize to
`"347_us_483"` (spaces to underscores, periods removed, lowercased). -/
theorem canonicalize_cite_variants :
    canonicalize_cite "347 U. S. 483" = "347_us_483" ∧
    canonicalize_cite "347 U.S. 483" = "347_us_483" :=
  ⟨by decide, by decide⟩

/-- C7: `verify_citation` classifies a citation with `in_scdb` equal to
membership of its canonical form in the SCDB set, `is_fake` equal to
membership in the fake set, and `exists_ = in_scdb ∧ ¬is_fake`; in
particular a citation whose canonical form lies in both sets classifies
with `exists_ = false` (fake membership dominates). -/
theorem verify_citation_spec (cite : String)
    (fake_us_cites scdb_us_cites : List String) :
    ((verify_citation cite fake_us_cites scdb_us_cites).in_scdb = true ↔
      canonicalize_cite cite ∈ scdb_us_cites) ∧
    ((verify_citation cite fake_us_cites scdb_us_cites).is_fake = true ↔
      canonicalize_cite cite ∈ fake_us_cites) ∧
    (verify_citation cite fake_us_cites scdb_us_cites).exists_ =
      ((verify_citation cite fake_us_cites scdb_us_cites).in_scdb &&
        !(verify_citation cite fake_us_cites scdb_us_cites).is_fake) ∧
    (canonicalize_cite cite ∈ fake_us_cites →
      (verify_citation cite fake_us_cites scdb_us_cites).exists_ = false) := by
  refine ⟨by simp [verify_citation], by simp [verify_citation], rfl, ?_⟩
  intro hf
  simp [verify_citation, hf]

/-- C7 witness: a citation present in both reference sets is classified
as not existing. -/
theorem verify_citation_spec_witness :
    (verify_citation "347 U.S. 483" ["347_us_483"] ["347_us_483"]).exists_ = false :=
  (verify_citation_spec "347 U.S. 483" ["347_us_483"] ["347_us_483"]).2.2.2 (by decide)

/-- C8: `verify_all_citations` returns the per-citation classification of
each element in order, with `all_valid` the conjunction of the `exists_`
flags; on the empty list it returns `([], true)`. -/
theorem verify_all_citations_spec (citations fake_us_cites scdb_us_cites : List String) :
    (verify_all_citations citations fake_us_cites scdb_us_cites).1 =
      citations.map (fun c => verify_citation c fake_us_cites scdb_us_cites) ∧
    (verify_all_citations citations fake_us_cites scdb_us_cites).2 =
      (citations.map (fun c => verify_citation c fake_us_cites scdb_us_cites)).all
        (fun r => r.exists_) ∧
    verify_all_citations [] fake_us_cites scdb_us_cites = ([], true) := by
  unfold verify_all_citations
  refine ⟨?_, ?_, rfl⟩ <;> rw [verifyAllGo_spec] <;> simp

/-- C10: validating a constructed `StepResult` (the `__post_init__` check)
succeeds exactly when its status is one of the three allowed values, and
raises exactly when it is not — regardless of every other field. -/
theorem stepResult_validate_spec (r : StepResult) :
    (r.validate = Except.ok r ↔
      (r.status = STATUS_OK ∨ r.status = STATUS_SKIPPED_COVERAGE ∨
        r.status = STATUS_SKIPPED_DEPENDENCY)) ∧
    ((∃ msg, r.validate = Except.error msg) ↔
      ¬(r.status = STATUS_OK ∨ r.status = STATUS_SKIPPED_COVERAGE ∨
        r.status = STATUS_SKIPPED_DEPENDENCY)) := by
  unfold StepResult.validate
  by_cases h : (VALID_STATUSES.contains r.status) = true
  · have hm : r.status = STATUS_OK ∨ r.status = STATUS_SKIPPED_COVERAGE ∨
        r.status = STATUS_SKIPPED_DEPENDENCY := by
      simpa [VALID_STATUSES] using h
    rw [if_pos h]
    refine ⟨⟨fun _ => hm, fun _ => rfl⟩,
      ⟨fun he => ?_, fun hn => absurd hm hn⟩⟩
    rcases he with ⟨msg, hmsg⟩
    exact Except.noConfusion hmsg
  · have hm : ¬(r.status = STATUS_OK ∨ r.status = STATUS_SKIPPED_COVERAGE ∨
        r.status = STATUS_SKIPPED_DEPENDENCY) := by
      intro hd
      exact h (by simpa [VALID_STATUSES] using hd)
    rw [if_neg h]
    exact ⟨⟨fun hok => Except.noConfusion hok, fun hd => absurd hd hm⟩,
      ⟨fun _ => hm, fun _ => ⟨_, rfl⟩⟩⟩

/-- C6: `extract_citations` returns, in first-occurrence order, the cleaned
regex matches de-duplicated by canonical form: the output is a sublist of
the match list, its canonical forms are pairwise distinct, every match's
canonical form is represented, and each returned citation is the first
match with its canonical form. -/
theorem extract_citations_spec (text : String) :
    (extract_citations text).Sublist (cleanedMatches text) ∧
    ((extract_citations text).map canonicalize_cite).Nodup ∧
    (∀ m ∈ cleanedMatches text,
      canonicalize_cite m ∈ (extract_citations text).map canonicalize_cite) ∧
    (∀ x ∈ extract_citations text,
      ((cleanedMatches text).filter
        (fun y => canonicalize_cite y == canonicalize_cite x)).head? = some x) := by
  refine ⟨dedupByCanonical_sublist [] _, dedupByCanonical_nodup_canon [] _, ?_, ?_⟩
  · intro m hm
    rcases @dedupByCanonical_covers [] (cleanedMatches text) m hm with h | h
    · simp [List.contains] at h
    · exact h
  · intro x hx
    exact dedupByCanonical_firstOcc hx

/-- C10 witness: a default-field result with status `OK` validates, and the
same shape with a bogus status raises. -/
theorem stepResult_validate_spec_witness :
    ({ step_id := "s1", step := "s1" } : StepResult).validate =
      Except.ok ({ step_id := "s1", step := "s1" } : StepResult) ∧
    (∃ msg, ({ step_id := "s1", step := "s1", status := "BOGUS" } : StepResult).validate =
      Except.error msg) :=
  ⟨(stepResult_validate_spec _).1.mpr (Or.inl rfl),
   (stepResult_validate_spec _).2.mpr (by decide)⟩

/-- C6 witness: in a text repeating one citation in two spellings, the kept
citation is the first match with its canonical form. -/
theorem extract_citations_spec_witness :
    ((cleanedMatches "347 U.S. 483; again 347 U. S. 483").filter
      (fun y => canonicalize_cite y == canonicalize_cite "347 U.S. 483")).head? =
      some "347 U.S. 483" :=
  (extract_citations_spec "347 U.S. 483; again 347 U. S. 483").2.2.2
    "347 U.S. 483" (by decide)

/-- C5 counterexample: `has_step` is keyed only on the logical step name,
not on status — a context whose only record is the `s5:cb` variant with
status `SKIPPED_COVERAGE` still satisfies `has_step "s5"` although no step
id is recorded with status `OK`, refuting the claim that `has_step`
requires an `OK` variant. -/
theorem has_step_counterexample :
    ctxC5.has_step "s5" = true ∧
    resC5.status = STATUS_SKIPPED_COVERAGE ∧
    ctxC5.get_ok_step_ids = [] :=
  ⟨rfl, rfl, rfl⟩

/-- C5 (amended): dependency satisfaction is keyed by the exact step id —
an id is in `get_ok_step_ids` exactly when a result recorded under that
exact id has status `OK`, so an `OK` result under `name:a` never satisfies
a dependency declared on `name:b`; and `has_step(logicalName)` returns
true exactly when some variant of that logical name has been recorded,
with any status. -/
theorem chainContext_dependency_keying (ctx : ChainContext) (id logical : String) :
    (id ∈ ctx.get_ok_step_ids ↔
      ∃ p ∈ ctx.step_results, p.1 = id ∧ p.2.status = STATUS_OK) ∧
    (ctx.has_step logical = true ↔ ∃ p ∈ ctx.step_results, p.2.step = logical) := by
  constructor
  · unfold ChainContext.get_ok_step_ids
    constructor
    · intro h
      rcases List.mem_map.mp h with ⟨q, hq, hfst⟩
      rcases List.mem_filter.mp hq with ⟨hmem, hst⟩
      exact ⟨q, hmem, hfst, beq_iff_eq.mp hst⟩
    · rintro ⟨p, hp, rfl, hst⟩
      exact List.mem_map.mpr ⟨p, List.mem_filter.mpr ⟨hp, beq_iff_eq.mpr hst⟩, rfl⟩
  · unfold ChainContext.has_step
    constructor
    · intro h
      rcases List.any_eq_true.mp h with ⟨q, hq, hst⟩
      exact ⟨q, hq, beq_iff_eq.mp hst⟩
    · rintro ⟨p, hp, hst⟩
      exact List.any_eq_true.mpr ⟨p, hp, beq_iff_eq.mpr hst⟩

/-- C5 witness: the skipped `s5:cb` record makes `has_step "s5"` true. -/
theorem chainContext_dependency_keying_witness :
    ctxC5.has_step "s5" = true :=
  (chainContext_dependency_keying ctxC5 "s5:cb" "s5").2.mpr
    ⟨("s5:cb", resC5), List.mem_singleton.mpr rfl, rfl⟩

/-- C4 counterexample: `S7CitationIntegrity.score` has no special case for
an `errors` key — a payload carrying both `errors` and a truthy
`all_valid` scores `(1.0, true)`, not `(0.0, false)`. -/
theorem s7_score_errors_counterexample :
    hasKey [("errors", JsonVal.arr [JsonVal.str "parse failed"]),
            ("all_valid", JsonVal.bool true)] "errors" = true ∧
    s7_score [("errors", JsonVal.arr [JsonVal.str "parse failed"]),
              ("all_valid", JsonVal.bool true)] [("all_valid", JsonVal.bool true)]
      = (1, true) ∧
    ((1 : Rat), true) ≠ ((0 : Rat), false) :=
  ⟨rfl, rfl, by decide⟩

/-- C4 (amended): each of the S1-S6 score functions returns `(0.0, false)`
whenever the payload carries an `errors` key (for S2 the payload is also
returned unmutated); `S7.score` does not special-case `errors` and returns
`(0.0, false)` exactly when `all_valid` is absent or falsy, so an `errors`
payload without a truthy `all_valid` also scores `(0.0, false)`; the stub
step returns its configured pair regardless of the payload. -/
theorem scores_on_errors_payload (parsed ground_truth : Payload)
    (h : hasKey parsed "errors" = true) :
    s1_score parsed ground_truth = some (0, false) ∧
    s2_score parsed ground_truth = some ((0, false), parsed) ∧
    s3_score parsed ground_truth = (0, false) ∧
    s4_score parsed ground_truth = some (0, false) ∧
    s5_score parsed ground_truth = (0, false) ∧
    s6_score parsed ground_truth = (0, false) ∧
    ((getD parsed "all_valid" (JsonVal.bool false)).truthy = false →
      s7_score parsed ground_truth = (0, false)) ∧
    (∀ (score_value : Rat) (always_correct : Bool),
      stub_score score_value always_correct parsed ground_truth =
        (score_value, always_correct)) := by
  refine ⟨?_, ?_, ?_, ?_, ?_, ?_, ?_, fun _ _ => rfl⟩
  · simp only [s1_score]
    rw [if_pos h]
  · simp only [s2_score]
    rw [if_pos h]
  · simp only [s3_score]
    rw [if_pos h]
  · simp only [s4_score]
    rw [if_pos h]
  · simp only [s5_score]
    rw [if_pos h]
  · simp only [s6_score]
    rw [if_pos h]
  · intro hv
    simp only [s7_score]
    rw [if_neg (by simp [hv])]

/-- C4 witness: an `errors`-carrying payload scores `(0.0, false)` under S1
and under S7 (whose `all_valid` default is falsy). -/
theorem scores_on_errors_payload_witness :
    s1_score [("errors", JsonVal.arr [])] [] = some (0, false) ∧
    s7_score [("errors", JsonVal.arr [])] [] = (0, false) :=
  ⟨(scores_on_errors_payload [("errors", JsonVal.arr [])] [] rfl).1,
   (scores_on_errors_payload [("errors", JsonVal.arr [])] [] rfl).2.2.2.2.2.2.1 rfl⟩

/-- C2: the executor's skip semantics.  If `check_coverage` is false the
recorded result is exactly the `SKIPPED_COVERAGE` record (built from the
step identity alone — no backend call, no scoring); otherwise, if
`requires()` is not a subset of the ids recorded with status `OK`, the
recorded result is exactly the `SKIPPED_DEPENDENCY` record whose single
diagnostic lists the sorted missing ids, which are exactly
`requires() - {ids with status OK}`; and for every step in the executor's
list the run records a result under its id — no skip aborts the run. -/
theorem executor_skip_spec :
    (∀ (ex : ChainExecutor) (step : Step) (ctx : ChainContext),
      step.check_coverage ctx = false →
      ex.execStep step ctx =
        { step_id := step.step_id, step := step.step_name,
          variant := step.extract_variant, status := STATUS_SKIPPED_COVERAGE }) ∧
    (∀ (ex : ChainExecutor) (step : Step) (ctx : ChainContext),
      step.check_coverage ctx = true →
      step.requires.all (fun r => ctx.get_ok_step_ids.contains r) = false →
      ex.execStep step ctx =
        { step_id := step.step_id, step := step.step_name,
          variant := step.extract_variant, status := STATUS_SKIPPED_DEPENDENCY,
          model_errors := JsonVal.arr [JsonVal.str (missingDepsMsg (pySorted
            (step.requires.filter (fun r => !ctx.get_ok_step_ids.contains r))))] } ∧
      (∀ x, x ∈ pySorted (step.requires.filter
          (fun r => !ctx.get_ok_step_ids.contains r)) ↔
        x ∈ step.requires ∧ x ∉ ctx.get_ok_step_ids) ∧
      (pySorted (step.requires.filter
          (fun r => !ctx.get_ok_step_ids.contains r))).Pairwise
        (fun a b => strLeB a b = true) ∧
      (pySorted (step.requires.filter
          (fun r => !ctx.get_ok_step_ids.contains r))).Perm
        (step.requires.filter (fun r => !ctx.get_ok_step_ids.contains r))) ∧
    (∀ (ex : ChainExecutor) (inst : ChainInstance) (step : Step),
      step ∈ ex.steps →
      ((ex.execute inst).step_results.find?
        (fun q => q.1 == step.step_id)).isSome = true) := by
  refine ⟨?_, ?_, ?_⟩
  · intro ex step ctx h
    simp only [ChainExecutor.execStep]
    rw [if_pos (by simp [h])]
  · intro ex step ctx h1 h2
    refine ⟨?_, ?_, pairwise_pySorted _, perm_pySorted _⟩
    · simp only [ChainExecutor.execStep]
      rw [if_neg (by simp [h1]), if_pos (by rw [h2]; rfl)]
    · intro x
      rw [List.Perm.mem_iff (perm_pySorted _)]
      constructor
      · intro hx
        rcases List.mem_filter.mp hx with ⟨hr, hc⟩
        rw [Bool.not_eq_true'] at hc
        refine ⟨hr, fun hmem => ?_⟩
        have hct : ctx.get_ok_step_ids.contains x = true := by simp [hmem]
        rw [hct] at hc
        cases hc
      · rintro ⟨hr, hnm⟩
        refine List.mem_filter.mpr ⟨hr, ?_⟩
        rw [Bool.not_eq_true']
        cases hc : ctx.get_ok_step_ids.contains x
        · rfl
        · exact absurd (by simpa using hc) hnm
  · intro ex inst step hmem
    have h1 : ((ex.executeLoop ex.steps { inst := inst }).get step.step_id).isSome = true :=
      loop_get_isSome ex ex.steps _ (Or.inl (List.mem_map.mpr ⟨step, hmem, rfl⟩))
    show ((ex.executeLoop ex.steps { inst := inst }).step_results.find?
        (fun q => q.1 == step.step_id)).isSome = true
    unfold ChainContext.get at h1
    cases hf : (ex.executeLoop ex.steps { inst := inst }).step_results.find?
        (fun q => q.1 == step.step_id) with
    | none =>
      rw [hf] at h1
      simp at h1
    | some q => rfl

/-- C2 witness: on the fixture executor, the coverage-gated step records
`SKIPPED_COVERAGE`, the dependency-gated step records `SKIPPED_DEPENDENCY`
with the sorted missing ids, and both steps still get an entry in the
outcome. -/
theorem executor_skip_spec_witness :
    (exW2.execStep covW ctxW).status = STATUS_SKIPPED_COVERAGE ∧
    (exW2.execStep depW ctxW).status = STATUS_SKIPPED_DEPENDENCY ∧
    (exW2.execStep depW ctxW).model_errors =
      JsonVal.arr [JsonVal.str "Missing dependencies: [\x27s1\x27, \x27s4\x27]"] ∧
    ((exW2.execute instW).step_results.find? (fun q => q.1 == "s2")).isSome = true ∧
    ((exW2.execute instW).step_results.find? (fun q => q.1 == "s5")).isSome = true := by
  refine ⟨?_, ?_, ?_, ?_, ?_⟩
  · rw [executor_skip_spec.1 exW2 covW ctxW rfl]
  · rw [(executor_skip_spec.2.1 exW2 depW ctxW rfl rfl).1]
  · rw [(executor_skip_spec.2.1 exW2 depW ctxW rfl rfl).1]
    rfl
  · exact executor_skip_spec.2.2 exW2 instW covW (List.Mem.head _)
  · exact executor_skip_spec.2.2 exW2 instW depW (List.Mem.tail _ (List.Mem.head _))

/-- C3: when S7 runs through the executor, its `parse` ignores the
citation-verification machinery.  For every backend response that does not
decode to a JSON object carrying a `"citations_found"` key, `parse`
returns the fixed default `{"citations_found": [], "all_valid": True}`;
`score` on that default yields `(1.0, True)`, so the S7 gate never fires:
no stored result is voided and the outcome is not voided.  Moreover the
whole execution is independent of the verification sets — the S7 step
seen through the Step contract is the same for any sets, because only
`s7_execute_verification`, which `execute` never calls, reads them. -/
theorem s7_parse_default_through_executor
    (decode : String → Option Payload)
    (canonical_fake canonical_scdb : List String)
    (ex : ChainExecutor) (inst : ChainInstance) (pre post : List Step)
    (hsteps : ex.steps = pre ++ mkS7Step decode canonical_fake canonical_scdb :: post)
    (hnodup : (ex.steps.map Step.step_id).Nodup)
    (h7 : ex.s7_step_id = "s7")
    (hdec : ∀ data, decode (ex.backend.complete
        (s7_prompt (ex.executeLoop pre { inst := inst }))) = some data →
      hasKey data "citations_found" = false) :
    s7_parse decode (ex.backend.complete
      (s7_prompt (ex.executeLoop pre { inst := inst }))) = s7DefaultPayload ∧
    (∀ gt, s7_score s7DefaultPayload gt = (1, true)) ∧
    (∀ r, (ex.executeLoop ex.steps { inst := inst }).get ex.s6_step_id = some r →
      r.voided = false) ∧
    (ex.execute inst).voided = false ∧
    (∀ fake2 scdb2, mkS7Step decode canonical_fake canonical_scdb =
      mkS7Step decode fake2 scdb2) := by
  set ctxPre := ex.executeLoop pre { inst := inst } with hctxPre
  set raw := ex.backend.complete (s7_prompt ctxPre) with hraw
  set g := mkS7Step decode canonical_fake canonical_scdb with hgdef
  have hparse : s7_parse decode raw = s7DefaultPayload := by
    unfold s7_parse
    split
    · cases hdecode : decode raw with
      | none => rfl
      | some data =>
        dsimp only
        rw [if_neg (by simp [hdec data hdecode])]
    · rfl
  have hscore : ∀ gt, s7_score s7DefaultPayload gt = (1, true) := fun _ => rfl
  have hgid : g.step_id = ex.s7_step_id := by rw [h7]; rfl
  rw [hsteps, List.map_append, List.map_cons] at hnodup
  rcases List.nodup_append.mp hnodup with ⟨_, hncons, hdisj⟩
  have h7pre : ex.s7_step_id ∉ pre.map Step.step_id := by
    intro hmem
    exact hdisj hmem (hgid ▸ List.Mem.head _)
  have h7post : ex.s7_step_id ∉ post.map Step.step_id := by
    rw [← hgid]
    exact (List.nodup_cons.mp hncons).1
  have hdecomp : ex.executeLoop ex.steps { inst := inst } =
      ex.executeLoop post
        (ex.applyS7Voiding (ctxPre.set g.step_id (ex.execStep g ctxPre))
          (ex.execStep g ctxPre)) := by
    rw [hsteps, executeLoop_append]
    simp only [ChainExecutor.executeLoop]
    rw [if_pos (by simp [hgid])]
  have hnf : ¬((ex.execStep g ctxPre).status = STATUS_OK ∧
      (ex.execStep g ctxPre).correct = false) := by
    rintro ⟨hst, hco⟩
    revert hst hco
    simp only [ChainExecutor.execStep]
    split
    · intro hst _
      have hst2 : STATUS_SKIPPED_COVERAGE = STATUS_OK := hst
      exact absurd hst2 (by decide)
    · split
      · intro hst _
        have hst2 : STATUS_SKIPPED_DEPENDENCY = STATUS_OK := hst
        exact absurd hst2 (by decide)
      · intro _ hco
        have hco2 : (s7_score (s7_parse decode raw) (s7_ground_truth ctxPre)).2 = false :=
          hco
        rw [hparse, hscore (s7_ground_truth ctxPre)] at hco2
        exact Bool.noConfusion hco2
  have hunv : ctxAllUnvoided (ex.executeLoop ex.steps { inst := inst }) := by
    rw [hdecomp, applyS7Voiding_of_notFired ex _ hnf]
    refine noVoidLoop ex post _ h7post
      (allUnvoided_set (noVoidLoop ex pre _ h7pre ?_)
        (execStep_voided_false ex g ctxPre))
    intro p hp
    exact absurd hp (List.not_mem_nil p)
  have hget7 : (ex.executeLoop ex.steps { inst := inst }).get ex.s7_step_id =
      some (ex.execStep g ctxPre) := by
    rw [hdecomp, applyS7Voiding_of_notFired ex _ hnf,
      loop_get_frame ex post _ h7post h7post, ← hgid,
      ChainContext.get_set_self]
  have hvoided : (ex.execute inst).voided = false := by
    show (ex.buildChainResult (ex.executeLoop ex.steps { inst := inst })).voided = false
    simp only [ChainExecutor.buildChainResult]
    rw [hget7]
    cases hst : (ex.execStep g ctxPre).status == STATUS_OK with
    | false => simp [hst]
    | true =>
      have hok : (ex.execStep g ctxPre).status = STATUS_OK := beq_iff_eq.mp hst
      have hcor : (ex.execStep g ctxPre).correct = true := by
        cases hco : (ex.execStep g ctxPre).correct with
        | false => exact absurd ⟨hok, hco⟩ hnf
        | true => rfl
      simp [hst, hcor]
  refine ⟨hparse, hscore, ?_, hvoided, fun _ _ => rfl⟩
  intro r hr
  exact allUnvoided_get hunv hr

/-- C3 witness: with a decode function that always fails and a backend
returning a fixed non-JSON string, S7 parses to the default payload and
the executed chain is not voided. -/
theorem s7_parse_default_through_executor_witness :
    s7_parse decodeNone (exW3.backend.complete
      (s7_prompt (exW3.executeLoop [s6W] { inst := instW }))) = s7DefaultPayload ∧
    (exW3.execute instW).voided = false := by
  have h := s7_parse_default_through_executor decodeNone [] [] exW3 instW [s6W] []
    rfl (by decide) rfl (fun data hd => by simp [decodeNone] at hd)
  exact ⟨h.1, h.2.2.2.1⟩

/-- C1: the gate-voiding semantics of the executor.  For an execution whose
step list contains exactly one step with the configured gate id (ids are
pairwise distinct) and whose gate and target ids differ: (1) the outcome's
`voided` flag equals whether the gate result has status `OK` with
`correct = false`; (2) the outcome's result map is the final context's;
(3) when the gate fires and a target result with status `OK` was recorded
before the gate ran, the final stored target result is exactly that result
with `voided = true` and the fixed diagnostic reason, its status and score
unchanged; (4) under any other gate outcome every stored result, the
target's included, keeps `voided = false`. -/
theorem executor_gate_voiding_spec
    (ex : ChainExecutor) (inst : ChainInstance) (pre post : List Step) (g : Step)
    (hsteps : ex.steps = pre ++ g :: post)
    (hnodup : (ex.steps.map Step.step_id).Nodup)
    (hg : g.step_id = ex.s7_step_id)
    (hne : ex.s7_step_id ≠ ex.s6_step_id) :
    ((ex.execute inst).voided =
      ((ex.execStep g (ex.executeLoop pre { inst := inst })).status == STATUS_OK &&
        !(ex.execStep g (ex.executeLoop pre { inst := inst })).correct)) ∧
    ((ex.execute inst).step_results =
      (ex.executeLoop ex.steps { inst := inst }).step_results) ∧
    (∀ r6, (ex.execStep g (ex.executeLoop pre { inst := inst })).status = STATUS_OK →
      (ex.execStep g (ex.executeLoop pre { inst := inst })).correct = false →
      (ex.executeLoop pre { inst := inst }).get ex.s6_step_id = some r6 →
      r6.status = STATUS_OK →
      (ex.executeLoop ex.steps { inst := inst }).get ex.s6_step_id =
        some { r6 with voided := true, void_reason := some s7VoidReason } ∧
      ({ r6 with voided := true, void_reason := some s7VoidReason } : StepResult).status
        = r6.status ∧
      ({ r6 with voided := true, void_reason := some s7VoidReason } : StepResult).score
        = r6.score) ∧
    (¬((ex.execStep g (ex.executeLoop pre { inst := inst })).status = STATUS_OK ∧
        (ex.execStep g (ex.executeLoop pre { inst := inst })).correct = false) →
      ∀ r, (ex.executeLoop ex.steps { inst := inst }).get ex.s6_step_id = some r →
        r.voided = false) := by
  set ctxPre := ex.executeLoop pre { inst := inst } with hctxPre
  set r7 := ex.execStep g ctxPre with hr7
  rw [hsteps, List.map_append, List.map_cons] at hnodup
  rcases List.nodup_append.mp hnodup with ⟨_, hncons, hdisj⟩
  have h7pre : ex.s7_step_id ∉ pre.map Step.step_id := by
    intro hmem
    exact hdisj hmem (hg ▸ List.Mem.head _)
  have h7post : ex.s7_step_id ∉ post.map Step.step_id := by
    rw [← hg]
    exact (List.nodup_cons.mp hncons).1
  have hdecomp : ex.executeLoop ex.steps { inst := inst } =
      ex.executeLoop post (ex.applyS7Voiding (ctxPre.set g.step_id r7) r7) := by
    rw [hsteps, executeLoop_append]
    simp only [ChainExecutor.executeLoop]
    rw [if_pos (by simp [hg])]
  have hne6 : ex.s6_step_id ≠ g.step_id := by
    rw [hg]
    exact fun he => hne he.symm
  have hget1 : (ctxPre.set g.step_id r7).get ex.s7_step_id = some r7 := by
    rw [← hg]
    exact ChainContext.get_set_self ctxPre g.step_id r7
  have hget2 : (ex.applyS7Voiding (ctxPre.set g.step_id r7) r7).get ex.s7_step_id =
      some r7 := by
    unfold ChainExecutor.applyS7Voiding
    split
    · exact hget1
    · split
      · split
        · split
          · rw [ChainContext.get_set_ne _ _ hne]
            exact hget1
          · exact hget1
        · exact hget1
      · exact hget1
  have hget7 : (ex.executeLoop ex.steps { inst := inst }).get ex.s7_step_id =
      some r7 := by
    rw [hdecomp, loop_get_frame ex post _ h7post h7post]
    exact hget2
  refine ⟨?_, rfl, ?_, ?_⟩
  · show (ex.buildChainResult (ex.executeLoop ex.steps { inst := inst })).voided = _
    simp only [ChainExecutor.buildChainResult]
    rw [hget7]
  · intro r6 h1 h2 h3 h4
    have hctx2 : ex.applyS7Voiding (ctxPre.set g.step_id r7) r7 =
        (ctxPre.set g.step_id r7).set ex.s6_step_id
          { r6 with voided := true, void_reason := some s7VoidReason } := by
      unfold ChainExecutor.applyS7Voiding
      rw [if_neg (by simp [h1]), if_pos (by simp [h2])]
      have hgs6 : (ctxPre.set g.step_id r7).get ex.s6_step_id = some r6 := by
        rw [ChainContext.get_set_ne ctxPre r7 hne6]
        exact h3
      rw [hgs6]
      dsimp only
      rw [if_pos (by simp [h4])]
    have hs6pre : ex.s6_step_id ∈ pre.map Step.step_id := by
      have hsome : (ctxPre.get ex.s6_step_id).isSome = true := by
        rw [h3]
        rfl
      rcases loop_get_isSome_src ex pre _ hsome with hcs | hm
      · have hcs2 : (none : Option StepResult).isSome = true := hcs
        exact Bool.noConfusion hcs2
      · exact hm
    have hs6post : ex.s6_step_id ∉ post.map Step.step_id := by
      intro hmem
      exact hdisj hs6pre (List.Mem.tail _ hmem)
    refine ⟨?_, rfl, rfl⟩
    rw [hdecomp, loop_get_frame ex post _ h7post hs6post, hctx2,
      ChainContext.get_set_self]
  · intro hnf r hr
    have hunv : ctxAllUnvoided (ex.executeLoop ex.steps { inst := inst }) := by
      rw [hdecomp, applyS7Voiding_of_notFired ex _ hnf]
      refine noVoidLoop ex post _ h7post
        (allUnvoided_set (noVoidLoop ex pre _ h7pre ?_)
          (execStep_voided_false ex g ctxPre))
      intro p hp
      exact absurd hp (List.not_mem_nil p)
    exact allUnvoided_get hunv hr

/-- C1 witness: on the fixture chain (stub S6 correct, stub S7 gate
incorrect) the gate fires — the outcome is voided and the stored S6 result
is the original S6 result with only the voiding fields changed. -/
theorem executor_gate_voiding_spec_witness :
    (exW1.execute instW).voided = true ∧
    (exW1.executeLoop exW1.steps { inst := instW }).get "s6" =
      some { r6W with voided := true, void_reason := some s7VoidReason } := by
  have h := executor_gate_voiding_spec exW1 instW [s6W] [] s7stubW rfl (by decide)
    rfl (by decide)
  refine ⟨?_, ?_⟩
  · rw [h.1]
    rfl
  · exact (h.2.2.1 r6W rfl rfl rfl rfl).1
